import Mathlib

/-!
Verification of the pytorch-fpn repository (fpn.py) against its
natural-language specification.

The composition engine (`containers.py`) and routing primitives
(`layers.py`) are imported by `fpn.py` but their sources are not part of
the repository snapshot; those components are modelled from the spec
(sections 4.1-4.4), as indicated in each doc comment.  Everything in
`fpn.py` itself (FPN, PanopticFPN, PANetFPN, `_get_shapes`, the factory
functions) is translated directly from the source.

Arrays are modelled at the shape level: a `Shape` is the (batch,
channels, height, width) descriptor of a tensor; a pipeline `Layer`
transforms a `Val` (a single array or a stream of arrays) into an
optional `Val`, `none` encoding a raised runtime error (arity or shape
mismatch).
-/

/-- Shape descriptor of an Array: batch, channels, height, width. -/
structure Shape where
  n : Nat
  c : Nat
  h : Nat
  w : Nat
deriving DecidableEq, Repr

/-- A value flowing through the pipeline: either a single Array or a
Stream (ordered sequence) of Arrays, each represented by its shape. -/
inductive Val where
  | arr : Shape → Val
  | stream : List Shape → Val
deriving DecidableEq, Repr

/-- Deep embedding of the pipeline stages used by fpn.py.  Numeric
kernels (Conv2d, GroupNorm, ReLU, bilinear interpolation) keep only
their shape behaviour; `backboneFn` stands for an opaque backbone
feature extractor (an external collaborator) producing a stream of
feature maps from one array. -/
inductive Layer where
  | conv2d (inC outC k p : Nat)
  | groupNorm (g ch : Nat)
  | relu
  | interpolateTo (h w : Nat)
  | interpolateScale (s : Nat)
  | reverse
  | addTensors
  | selectOne (k : Nat)
  | residual (inner : Layer)
  | parallel (bs : List Layer)
  | smimo (stages : List Layer)
  | seq (ls : List Layer)
  | backboneFn (f : Shape → Option (List Shape))

/-- Shape behaviour of a stride-1 2d convolution with kernel size `k`
and padding `p`: requires the declared input channel count and a
spatial extent at least the kernel; output spatial size is
`h + 2p - k + 1`. -/
def convShape (inC outC k p : Nat) (s : Shape) : Option Shape :=
  if s.c = inC ∧ k ≤ s.h + 2 * p ∧ k ≤ s.w + 2 * p then
    some ⟨s.n, outC, s.h + 2 * p + 1 - k, s.w + 2 * p + 1 - k⟩
  else none

mutual

/-- Evaluate one layer on a value.  `none` models a raised error.
Container semantics (Parallel, SequentialMultiInputMultiOutput) and
routing primitives (Reverse, Residual, Interpolate, AddTensors,
SelectOne) are modelled from the spec sections 4.1-4.4, since
containers.py and layers.py are not in the repository snapshot. -/
def evalL : Layer → Val → Option Val
  | .conv2d inC outC k p, .arr s => (convShape inC outC k p s).map .arr
  | .groupNorm _ ch, .arr s => if s.c = ch then some (.arr s) else none
  | .relu, .arr s => some (.arr s)
  | .interpolateTo h w, .arr s => some (.arr ⟨s.n, s.c, h, w⟩)
  | .interpolateScale k, .arr s => some (.arr ⟨s.n, s.c, k * s.h, k * s.w⟩)
  | .reverse, .stream xs => some (.stream xs.reverse)
  | .addTensors, .stream (x :: xs) =>
      if xs.all (fun y => y = x) then some (.arr x) else none
  | .selectOne k, .stream xs => (xs.get? k).map .arr
  | .residual inner, .arr s =>
      match evalL inner (.arr s) with
      | some (.arr b) => if b = s then some (.arr s) else none
      | _ => none
  | .parallel bs, .stream xs => (evalPar bs xs).map .stream
  | .smimo stages, .stream xs => (smimoRun stages xs).map .stream
  | .seq ls, v => evalSeq ls v
  | .backboneFn f, .arr s => (f s).map .stream
  | _, _ => none

/-- Parallel (modelled from the spec, 4.1): branch i applied to input i;
a length mismatch is an arity error. -/
def evalPar : List Layer → List Shape → Option (List Shape)
  | [], [] => some []
  | b :: bs, x :: xs =>
      match evalL b (.arr x) with
      | some (.arr y) =>
          match evalPar bs xs with
          | some ys => some (y :: ys)
          | none => none
      | _ => none
  | _, _ => none

/-- Chained application of a list of layers (nn.Sequential). -/
def evalSeq : List Layer → Val → Option Val
  | [], v => some v
  | l :: ls, v =>
      match evalL l v with
      | some v2 => evalSeq ls v2
      | none => none

/-- Merge policy of a SequentialMultiInputMultiOutput stage (modelled
from the spec, 4.3/4.4): a Residual-wrapped resampler combines the
running accumulator with the co-indexed lateral input by transforming
the accumulator and adding it elementwise to the lateral input, which
requires the transformed shape to match the lateral shape. -/
def evalMerge : Layer → Shape → Shape → Option Shape
  | .residual inner, acc, lateral =>
      match evalL inner (.arr acc) with
      | some (.arr b) => if b = lateral then some lateral else none
      | _ => none
  | _, _, _ => none

/-- Fold of SequentialMultiInputMultiOutput after the first level:
each remaining stage merges the accumulator with its external input. -/
def smimoFold : Shape → List Layer → List Shape → Option (List Shape)
  | _, [], [] => some []
  | acc, st :: sts, x :: xs =>
      match evalMerge st acc x with
      | some acc2 =>
          match smimoFold acc2 sts xs with
          | some ys => some (acc2 :: ys)
          | none => none
      | none => none
  | _, _, _ => none

/-- SequentialMultiInputMultiOutput (modelled from the spec, 4.3, since
containers.py is not in the snapshot): called with an external Stream
whose length equals the stage count; the accumulator is initialized to
the first external element, which is also output 0; each later stage,
co-indexed with its pyramid level, merges the running accumulator with
the external input of that level; a length mismatch is an arity
error. -/
def smimoRun : List Layer → List Shape → Option (List Shape)
  | [], [] => some []
  | _ :: sts, x0 :: xs =>
      match smimoFold x0 sts xs with
      | some ys => some (x0 :: ys)
      | none => none
  | _, _ => none

end

/-- Per-level 1x1 channel projections of FPN (fpn.py lines 16-19):
one Conv2d(s[1], hidden_channels, kernel_size=1) per level, built over
the reversed shape list. -/
def fpnInConvs (in_feats_shapes : List Shape) (hidden_channels : Nat) : Layer :=
  .parallel (in_feats_shapes.reverse.map (fun s => .conv2d s.c hidden_channels 1 0))

/-- Merge stages of FPN's top-down fold (fpn.py lines 20-24): one
Residual(Interpolate(size=s[-2:])) per level, over the reversed shape
list. -/
def fpnMergeStages (in_feats_shapes : List Shape) : List Layer :=
  in_feats_shapes.reverse.map (fun s => .residual (.interpolateTo s.h s.w))

/-- Per-level 3x3 output convolutions of FPN (fpn.py lines 25-28):
Conv2d(hidden_channels, out_channels, kernel_size=3, padding=1) per
level. -/
def fpnOutConvs (in_feats_shapes : List Shape) (hidden_channels out_channels : Nat) :
    Layer :=
  .parallel (in_feats_shapes.reverse.map
    (fun _ => .conv2d hidden_channels out_channels 3 1))

/-- FPN (fpn.py lines 11-38): nn.Sequential of Reverse, the 1x1
projections, the top-down fold, the 3x3 output convolutions, and a
final Reverse. -/
def FPN (in_feats_shapes : List Shape) (hidden_channels out_channels : Nat) : Layer :=
  .seq [.reverse,
        fpnInConvs in_feats_shapes hidden_channels,
        .smimo (fpnMergeStages in_feats_shapes),
        fpnOutConvs in_feats_shapes hidden_channels out_channels,
        .reverse]

/-- One upsampling block of PanopticFPN (fpn.py `_upsample_once`, lines 87-107):
Conv2d(in_c, out_c, 3, padding=1), GroupNorm(g, out_c), ReLU, followed
by an Interpolate unless scale == 1; the Interpolate targets an explicit
size when one is given, otherwise it scales by `scale`. -/
def upsample_once (in_c : Nat) (out_c : Option Nat) (scale : Nat)
    (size : Option (Nat × Nat)) (g : Nat) : Layer :=
  let oc := out_c.getD in_c
  let layers : List Layer := [.conv2d in_c oc 3 1, .groupNorm g oc, .relu]
  if scale = 1 then .seq layers
  else
    match size with
    | none => .seq (layers ++ [.interpolateScale scale])
    | some sz => .seq (layers ++ [.interpolateTo sz.1 sz.2])

/-- One per-level upsampling ladder of PanopticFPN (fpn.py
`_upsample_feat`, lines 77-85): for num_up = 0 a single non-scaling
block halving the channels; otherwise num_up - 1 scale-2 blocks followed
by a channel-halving block interpolating to the common `size`. -/
def upsample_feat (c num_up : Nat) (size : Nat × Nat) (g : Nat) : Layer :=
  if num_up = 0 then upsample_once c (some (c / 2)) 1 none g
  else
    .seq ((List.range (num_up - 1)).map (fun _ => upsample_once c none 2 none g)
      ++ [upsample_once c (some (c / 2)) 2 (some size) g])

/-- The Parallel of per-level upsampling ladders (fpn.py
`_make_upsamplers`, lines 71-75). -/
def make_upsamplers (c : Nat) (size : Nat × Nat) (num_ups : List Nat) (g : Nat) :
    Layer :=
  .parallel (num_ups.map (fun u => upsample_feat c u size g))

/-- PanopticFPN (fpn.py lines 41-69): per-level 1x1 projections, the
per-level upsampling ladders, AddTensors, and a final
Conv2d(hidden_channels // 2, out_channels, kernel_size=1).  `size` is
`in_feats_shapes[0][-2:]`. -/
def PanopticFPN (in_feats_shapes : List Shape) (hidden_channels out_channels : Nat)
    (num_ups : List Nat) (num_groups_for_norm : Nat) : Layer :=
  let size : Nat × Nat :=
    ((in_feats_shapes.headD ⟨0, 0, 0, 0⟩).h, (in_feats_shapes.headD ⟨0, 0, 0, 0⟩).w)
  .seq [.parallel (in_feats_shapes.map (fun s => .conv2d s.c hidden_channels 1 0)),
        make_upsamplers hidden_channels size num_ups num_groups_for_norm,
        .addTensors,
        .conv2d (hidden_channels / 2) out_channels 1 0]

/-- PANetFPN (fpn.py lines 110-133): a first FPN with hidden output
channels, Reverse, a second FPN built over the reversed
hidden-channel shapes, and a final Reverse. -/
def PANetFPN (in_feats_shapes : List Shape) (hidden_channels out_channels : Nat) :
    Layer :=
  let fpn1 := FPN in_feats_shapes hidden_channels hidden_channels
  let shapes2 := in_feats_shapes.map
    (fun s => Shape.mk s.n hidden_channels s.h s.w)
  let fpn2 := FPN shapes2.reverse hidden_channels out_channels
  .seq [fpn1, .reverse, fpn2, .reverse]

/-- SplitTensor along the channel axis (modelled from the spec, 4.4,
since layers.py is not in the repository snapshot): the channel axis of
an Array is represented as the list of its channel slices; a configured
partition into contiguous chunk sizes splits it into chunks in the same
relative order, erroring when the chunk sizes do not sum to the channel
count. -/
def splitTensor {α : Type} : List Nat → List α → Option (List (List α))
  | [], [] => some []
  | [], _ :: _ => none
  | s :: ss, l =>
      if s ≤ l.length then
        match splitTensor ss (l.drop s) with
        | some r => some (l.take s :: r)
        | none => none
      else none

/-- Initialization discipline of a freshly constructed tensor: filled
with zeros (torch.zeros) or left uninitialized (torch.empty). -/
inductive TInit where
  | zeros
  | uninit
deriving DecidableEq, Repr

/-- A tensor as seen by the shape-probing utility: its shape plus how
its contents were initialized. -/
structure TArr where
  shape : Shape
  init : TInit
deriving DecidableEq, Repr

/-- The tensor built by `torch.empty(1, ch, sz, sz)` in `_get_shapes`
(fpn.py line 140): uninitialized contents. -/
def torchEmpty (ch sz : Nat) : TArr :=
  ⟨⟨1, ch, sz, sz⟩, .uninit⟩

/-- Record of one invocation of the backbone's forward function during
probing: the module's training flag at call time, whether gradient
recording was enabled, and the argument tensor. -/
structure ForwardCall where
  training : Bool
  grad_enabled : Bool
  input : TArr
deriving DecidableEq, Repr

/-- Observable outcome of `_get_shapes`: the returned shape list (none
when the forward pass raised and the exception propagated), the list of
forward invocations performed, and the module's training flag once
`_get_shapes` has finished (normally or exceptionally). -/
structure ProbeOutcome where
  result : Option (List Shape)
  calls : List ForwardCall
  final_training : Bool
deriving DecidableEq, Repr

/-- `_get_shapes` (fpn.py lines 136-142), translated line by line.  The
module is modelled by its training flag `training0` and its forward
behaviour `f` (returning none when the forward pass raises).  The body
saves the flag, calls `m.eval()` (flag := false), runs the forward pass
once inside `torch.no_grad()`, then calls `m.train(state)` and returns
the per-element shapes.  There is no try/finally: when the forward pass
raises, `m.train(state)` is never reached, so the flag stays false and
the exception propagates. -/
def get_shapes (training0 : Bool) (f : TArr → Option (List TArr))
    (ch sz : Nat) : ProbeOutcome :=
  let state := training0
  let probe := torchEmpty ch sz
  match f probe with
  | none => ⟨none, [⟨false, false, probe⟩], false⟩
  | some feats => ⟨some (feats.map TArr.shape), [⟨false, false, probe⟩], state⟩

/-- Errors a factory function can raise while assembling a model:
NotImplementedError for an unrecognized fpn_type (fpn.py lines 249-250
and 353-354), or a failure propagated from the backbone collaborator
during shape probing. -/
inductive FactoryError where
  | notImplemented
  | collaborator
deriving DecidableEq, Repr

/-- `make_segm_fpn_efficientnet` (fpn.py lines 199-255) at the shape
level.  The loaded EfficientNet backbone is an external collaborator,
abstracted as the function `backbone` from an input shape to the stream
of feature-map shapes (none = failure).  The factory probes the
feature shapes with a (1, in_channels, out_size[0], out_size[0]) tensor
as `_get_shapes` does, dispatches on `fpn_type` over the fixed set
"fpn" / "panoptic" / "panet+fpn" raising NotImplementedError otherwise,
and wires backbone, pyramid head and a final Interpolate to `out_size`
into one nn.Sequential. -/
def make_segm_fpn_efficientnet (backbone : Shape → Option (List Shape))
    (fpn_type : String) (out_size : Nat × Nat)
    (fpn_channels num_classes in_channels : Nat) : Except FactoryError Layer :=
  match backbone ⟨1, in_channels, out_size.1, out_size.1⟩ with
  | none => .error .collaborator
  | some feats_shapes =>
    if fpn_type = "fpn" then
      .ok (.seq [.backboneFn backbone,
                 .seq [FPN feats_shapes fpn_channels num_classes, .selectOne 0],
                 .interpolateTo out_size.1 out_size.2])
    else if fpn_type = "panoptic" then
      .ok (.seq [.backboneFn backbone,
                 PanopticFPN feats_shapes fpn_channels num_classes
                   (List.range feats_shapes.length) 32,
                 .interpolateTo out_size.1 out_size.2])
    else if fpn_type = "panet+fpn" then
      .ok (.seq [.backboneFn backbone,
                 .seq [PANetFPN feats_shapes fpn_channels fpn_channels,
                       FPN (feats_shapes.map
                             (fun s => Shape.mk s.n fpn_channels s.h s.w))
                         fpn_channels num_classes,
                       .selectOne 0],
                 .interpolateTo out_size.1 out_size.2])
    else .error .notImplemented

/-- `make_segm_fpn_resnet` (fpn.py lines 286-362) at the shape level.
The ResNet backbone (with its channel-adaptation variants) is an
external collaborator abstracted exactly as in
`make_segm_fpn_efficientnet`; the shape probing, fpn_type dispatch and
final assembly are identical to the EfficientNet factory. -/
def make_segm_fpn_resnet (backbone : Shape → Option (List Shape))
    (fpn_type : String) (out_size : Nat × Nat)
    (fpn_channels num_classes in_channels : Nat) : Except FactoryError Layer :=
  match backbone ⟨1, in_channels, out_size.1, out_size.1⟩ with
  | none => .error .collaborator
  | some feats_shapes =>
    if fpn_type = "fpn" then
      .ok (.seq [.backboneFn backbone,
                 .seq [FPN feats_shapes fpn_channels num_classes, .selectOne 0],
                 .interpolateTo out_size.1 out_size.2])
    else if fpn_type = "panoptic" then
      .ok (.seq [.backboneFn backbone,
                 PanopticFPN feats_shapes fpn_channels num_classes
                   (List.range feats_shapes.length) 32,
                 .interpolateTo out_size.1 out_size.2])
    else if fpn_type = "panet+fpn" then
      .ok (.seq [.backboneFn backbone,
                 .seq [PANetFPN feats_shapes fpn_channels fpn_channels,
                       FPN (feats_shapes.map
                             (fun s => Shape.mk s.n fpn_channels s.h s.w))
                         fpn_channels num_classes,
                       .selectOne 0],
                 .interpolateTo out_size.1 out_size.2])
    else .error .notImplemented

/-- Stream of per-level lateral inputs entering FPN's top-down fold:
the reversed shape list with a common batch size and (post-projection)
channel count. -/
def fpnLevelStream (in_feats_shapes : List Shape) (n c : Nat) : List Shape :=
  in_feats_shapes.reverse.map (fun s => ⟨n, c, s.h, s.w⟩)

/-- Concrete single-level backbone used by the witness for C6. -/
def bbWitness : Shape → Option (List Shape) := fun s => some [⟨s.n, 4, 4, 4⟩]

/-- The model the EfficientNet factory assembles from `bbWitness` with
fpn_type "fpn", out_size (8, 8), 16 hidden channels and 5 classes. -/
def modelWitness : Layer :=
  match make_segm_fpn_efficientnet bbWitness "fpn" (8, 8) 16 5 3 with
  | .ok m => m
  | .error _ => .relu

theorem evalSeq_cons (l : Layer) (ls : List Layer) (v : Val) :
    evalSeq (l :: ls) v = (evalL l v).bind (evalSeq ls) := by
  cases h : evalL l v <;> simp [evalSeq, h]

theorem evalSeq_append (l1 l2 : List Layer) (v : Val) :
    evalSeq (l1 ++ l2) v = (evalSeq l1 v).bind (evalSeq l2) := by
  induction l1 generalizing v with
  | nil => simp [evalSeq]
  | cons a as ih =>
      rw [List.cons_append, evalSeq_cons, evalSeq_cons]
      cases h : evalL a v <;> simp [ih]

theorem conv_eval (ic oc k p n h w : Nat) (hk1 : k ≤ h + 2 * p)
    (hk2 : k ≤ w + 2 * p) :
    evalL (.conv2d ic oc k p) (.arr ⟨n, ic, h, w⟩)
      = some (.arr ⟨n, oc, h + 2 * p + 1 - k, w + 2 * p + 1 - k⟩) := by
  simp [evalL, convShape, hk1, hk2]

theorem conv1x1_eval (ic oc n h w : Nat) (hh : 1 ≤ h) (hw : 1 ≤ w) :
    evalL (.conv2d ic oc 1 0) (.arr ⟨n, ic, h, w⟩) = some (.arr ⟨n, oc, h, w⟩) := by
  have e1 : h + 2 * 0 + 1 - 1 = h := by omega
  have e2 : w + 2 * 0 + 1 - 1 = w := by omega
  rw [conv_eval ic oc 1 0 n h w (by omega) (by omega), e1, e2]

theorem conv3x3_eval (ic oc n h w : Nat) (hh : 1 ≤ h) (hw : 1 ≤ w) :
    evalL (.conv2d ic oc 3 1) (.arr ⟨n, ic, h, w⟩) = some (.arr ⟨n, oc, h, w⟩) := by
  have e1 : h + 2 * 1 + 1 - 3 = h := by omega
  have e2 : w + 2 * 1 + 1 - 3 = w := by omega
  rw [conv_eval ic oc 3 1 n h w (by omega) (by omega), e1, e2]

theorem cgr_eval (ic oc g n h w : Nat) (hh : 1 ≤ h) (hw : 1 ≤ w) :
    evalSeq [.conv2d ic oc 3 1, .groupNorm g oc, .relu] (.arr ⟨n, ic, h, w⟩)
      = some (.arr ⟨n, oc, h, w⟩) := by
  rw [evalSeq_cons, conv3x3_eval ic oc n h w hh hw]
  simp [evalSeq, evalL]

theorem smimoFold_length (sts : List Layer) (acc : Shape) (xs ys : List Shape)
    (hrun : smimoFold acc sts xs = some ys) :
    ys.length = xs.length ∧ xs.length = sts.length := by
  induction sts generalizing acc xs ys with
  | nil =>
      cases xs with
      | nil => simp [smimoFold] at hrun; simp [← hrun]
      | cons x xs => simp [smimoFold] at hrun
  | cons st sts ih =>
      cases xs with
      | nil => simp [smimoFold] at hrun
      | cons x xs =>
          simp only [smimoFold] at hrun
          cases hm : evalMerge st acc x with
          | none => simp [hm] at hrun
          | some acc2 =>
              simp only [hm] at hrun
              cases hf : smimoFold acc2 sts xs with
              | none => simp [hf] at hrun
              | some ys2 =>
                  simp only [hf, Option.some.injEq] at hrun
                  subst hrun
                  have := ih acc2 xs ys2 hf
                  simp only [List.length_cons]
                  omega

theorem smimo_fold_fpn (rest : List Shape) (acc : Shape) (n c : Nat)
    (hn : acc.n = n) (hc : acc.c = c) :
    smimoFold acc (rest.map (fun s => .residual (.interpolateTo s.h s.w)))
        (rest.map (fun s => ⟨n, c, s.h, s.w⟩))
      = some (rest.map (fun s => ⟨n, c, s.h, s.w⟩)) := by
  induction rest generalizing acc with
  | nil => simp [smimoFold]
  | cons s rest ih =>
      have hmerge : evalMerge (.residual (.interpolateTo s.h s.w)) acc ⟨n, c, s.h, s.w⟩
          = some ⟨n, c, s.h, s.w⟩ := by
        simp [evalMerge, evalL, hn, hc]
      simp only [List.map_cons, smimoFold, hmerge]
      rw [ih ⟨n, c, s.h, s.w⟩ rfl rfl]

/-- C1: a SequentialMultiInputMultiOutput built from N stages and called
with an external Stream of length N returns a Stream of length N, and,
with the merge stages of the FPN wiring (one Residual-wrapped
Interpolate sized to the corresponding level's spatial shape, fpn.py
lines 20-24), the output Stream equals the lateral input Stream
element by element, so it preserves external input order and output i
has the same spatial (height, width) shape as external input i. -/
theorem fpn_smimo_shape_guarantee :
    (∀ (stages : List Layer) (xs ys : List Shape), smimoRun stages xs = some ys →
      ys.length = xs.length ∧ xs.length = stages.length)
    ∧ ∀ (in_feats_shapes : List Shape) (n c : Nat),
        smimoRun (fpnMergeStages in_feats_shapes) (fpnLevelStream in_feats_shapes n c)
          = some (fpnLevelStream in_feats_shapes n c) := by
  constructor
  · intro stages xs ys hrun
    cases stages with
    | nil =>
        cases xs with
        | nil => simp [smimoRun] at hrun; simp [← hrun]
        | cons x xs => simp [smimoRun] at hrun
    | cons st sts =>
        cases xs with
        | nil => simp [smimoRun] at hrun
        | cons x0 xs =>
            simp only [smimoRun] at hrun
            cases hf : smimoFold x0 sts xs with
            | none => simp [hf] at hrun
            | some ys2 =>
                simp only [hf, Option.some.injEq] at hrun
                subst hrun
                have := smimoFold_length sts x0 xs ys2 hf
                simp only [List.length_cons]
                omega
  · intro in_feats_shapes n c
    unfold fpnMergeStages fpnLevelStream
    cases hL : in_feats_shapes.reverse with
    | nil => simp [smimoRun]
    | cons s0 rest =>
        simp only [List.map_cons, smimoRun]
        rw [smimo_fold_fpn rest ⟨n, c, s0.h, s0.w⟩ n c rfl rfl]

/-- Witness for C1 at a concrete two-level pyramid. -/
theorem fpn_smimo_shape_guarantee_witness :
    ((fpnLevelStream [⟨1, 2, 6, 6⟩, ⟨1, 4, 3, 3⟩] 1 5).length
        = (fpnLevelStream [⟨1, 2, 6, 6⟩, ⟨1, 4, 3, 3⟩] 1 5).length
      ∧ (fpnLevelStream [⟨1, 2, 6, 6⟩, ⟨1, 4, 3, 3⟩] 1 5).length
        = (fpnMergeStages [⟨1, 2, 6, 6⟩, ⟨1, 4, 3, 3⟩]).length)
    ∧ smimoRun (fpnMergeStages [⟨1, 2, 6, 6⟩, ⟨1, 4, 3, 3⟩])
        (fpnLevelStream [⟨1, 2, 6, 6⟩, ⟨1, 4, 3, 3⟩] 1 5)
      = some (fpnLevelStream [⟨1, 2, 6, 6⟩, ⟨1, 4, 3, 3⟩] 1 5) :=
  ⟨fpn_smimo_shape_guarantee.1 (fpnMergeStages [⟨1, 2, 6, 6⟩, ⟨1, 4, 3, 3⟩])
      (fpnLevelStream [⟨1, 2, 6, 6⟩, ⟨1, 4, 3, 3⟩] 1 5)
      (fpnLevelStream [⟨1, 2, 6, 6⟩, ⟨1, 4, 3, 3⟩] 1 5) (by decide),
   fpn_smimo_shape_guarantee.2 [⟨1, 2, 6, 6⟩, ⟨1, 4, 3, 3⟩] 1 5⟩

theorem evalSeq_singleton (l : Layer) (v : Val) : evalSeq [l] v = evalL l v := by
  rw [evalSeq_cons]
  cases h : evalL l v <;> simp [evalSeq]

/-- C5: an FPN instance evaluates its input Stream as exactly the
five-step pipeline: Reverse to coarsest-first order, per-level 1x1
channel projections via Parallel, the top-down fold via
SequentialMultiInputMultiOutput whose merge stages are Residual-wrapped
Interpolate resamplers, per-level 3x3 output convolutions via Parallel,
and Reverse back to finest-first order (fpn.py lines 11-38). -/
theorem fpn_five_step_pipeline (in_feats_shapes : List Shape)
    (hidden_channels out_channels : Nat) (v : Val) :
    evalL (FPN in_feats_shapes hidden_channels out_channels) v
      = (evalL .reverse v).bind (fun v1 =>
          (evalL (fpnInConvs in_feats_shapes hidden_channels) v1).bind (fun v2 =>
            (evalL (.smimo (fpnMergeStages in_feats_shapes)) v2).bind (fun v3 =>
              (evalL (fpnOutConvs in_feats_shapes hidden_channels out_channels)
                  v3).bind (fun v4 =>
                evalL .reverse v4)))) := by
  show evalSeq [.reverse,
        fpnInConvs in_feats_shapes hidden_channels,
        .smimo (fpnMergeStages in_feats_shapes),
        fpnOutConvs in_feats_shapes hidden_channels out_channels,
        .reverse] v = _
  rw [evalSeq_cons]
  congr 1
  funext v1
  rw [evalSeq_cons]
  congr 1
  funext v2
  rw [evalSeq_cons]
  congr 1
  funext v3
  rw [evalSeq_cons]
  congr 1
  funext v4
  exact evalSeq_singleton .reverse v4

/-- C8: PANetFPN evaluates as one complete FPN pass (top-down over the
given shapes), a Reverse of the resulting Stream, a second complete FPN
pass built over the reversed hidden-channel shapes (the opposite
direction), and a final Reverse restoring the original order (fpn.py
lines 110-133). -/
theorem panetfpn_two_pass_structure (in_feats_shapes : List Shape)
    (hidden_channels out_channels : Nat) (v : Val) :
    evalL (PANetFPN in_feats_shapes hidden_channels out_channels) v
      = (evalL (FPN in_feats_shapes hidden_channels hidden_channels) v).bind
          (fun v1 => (evalL .reverse v1).bind (fun v2 =>
            (evalL (FPN ((in_feats_shapes.map
                (fun s => Shape.mk s.n hidden_channels s.h s.w)).reverse)
                hidden_channels out_channels) v2).bind (fun v3 =>
              evalL .reverse v3))) := by
  show evalSeq [FPN in_feats_shapes hidden_channels hidden_channels,
        .reverse,
        FPN ((in_feats_shapes.map
            (fun s => Shape.mk s.n hidden_channels s.h s.w)).reverse)
          hidden_channels out_channels,
        .reverse] v = _
  rw [evalSeq_cons]
  congr 1
  funext v1
  rw [evalSeq_cons]
  congr 1
  funext v2
  rw [evalSeq_cons]
  congr 1
  funext v3
  exact evalSeq_singleton .reverse v3

/-- C4: for every call of either segmentation factory whose successfully
probed backbone reaches the pyramid-variant dispatch, a selector outside
the fixed set "fpn" / "panoptic" / "panet+fpn" makes the factory raise
NotImplementedError (fpn.py lines 249-250 and 353-354): the result is a
construction-time error and no model is returned, so no pipeline
evaluation can begin. -/
theorem unknown_fpn_type_errors (backbone : Shape → Option (List Shape))
    (fpn_type : String) (out_size : Nat × Nat)
    (fpn_channels num_classes in_channels : Nat) (feats : List Shape)
    (hprobe : backbone ⟨1, in_channels, out_size.1, out_size.1⟩ = some feats)
    (h1 : fpn_type ≠ "fpn") (h2 : fpn_type ≠ "panoptic")
    (h3 : fpn_type ≠ "panet+fpn") :
    make_segm_fpn_efficientnet backbone fpn_type out_size fpn_channels
        num_classes in_channels = .error .notImplemented
    ∧ make_segm_fpn_resnet backbone fpn_type out_size fpn_channels
        num_classes in_channels = .error .notImplemented := by
  unfold make_segm_fpn_efficientnet make_segm_fpn_resnet
  rw [hprobe]
  simp [h1, h2, h3]

/-- Witness for C4 with a concrete backbone and the selector "panet". -/
theorem unknown_fpn_type_errors_witness :
    make_segm_fpn_efficientnet (fun s => some [s]) "panet" (4, 4) 8 5 3
        = .error .notImplemented
    ∧ make_segm_fpn_resnet (fun s => some [s]) "panet" (4, 4) 8 5 3
        = .error .notImplemented :=
  unknown_fpn_type_errors (fun s => some [s]) "panet" (4, 4) 8 5 3
    [⟨1, 3, 4, 4⟩] rfl (by decide) (by decide) (by decide)

/-- C2 counterexample: at ch = 3, sz = 224 and a backbone returning an
empty stream, the tensor `_get_shapes` constructs and feeds to the
backbone is `torch.empty(1, 3, 224, 224)` (fpn.py line 140), whose
contents are uninitialized, not all-zero; so the claim that the probe
constructs an all-zero Array is false. -/
theorem probe_array_not_all_zero :
    (get_shapes true (fun _ => some []) 3 224).calls.map
        (fun call => call.input.init) = [TInit.uninit]
    ∧ TInit.uninit ≠ TInit.zeros := by
  constructor
  · rfl
  · decide

/-- C2 as amended: `_get_shapes`, given a backbone and a channel count
and spatial size, constructs one uninitialized Array of shape
(1, ch, sz, sz) (torch.empty, not zeros), evaluates the backbone
exactly once in inference mode (training flag false) with gradients
disabled, and, when the forward pass succeeds, returns the shape of
every element of the resulting Stream. -/
theorem get_shapes_probe_behaviour (training0 : Bool)
    (f : TArr → Option (List TArr)) (ch sz : Nat) (feats : List TArr)
    (hok : f (torchEmpty ch sz) = some feats) :
    (get_shapes training0 f ch sz).calls
        = [⟨false, false, ⟨⟨1, ch, sz, sz⟩, TInit.uninit⟩⟩]
    ∧ (get_shapes training0 f ch sz).result = some (feats.map TArr.shape) := by
  simp only [get_shapes, torchEmpty] at hok ⊢
  rw [hok]
  exact ⟨rfl, rfl⟩

/-- Witness for C2's amended theorem at a concrete module and backbone. -/
theorem get_shapes_probe_behaviour_witness :
    (get_shapes true (fun a => some [a, a]) 3 224).calls
        = [⟨false, false, ⟨⟨1, 3, 224, 224⟩, TInit.uninit⟩⟩]
    ∧ (get_shapes true (fun a => some [a, a]) 3 224).result
        = some ([torchEmpty 3 224, torchEmpty 3 224].map TArr.shape) :=
  get_shapes_probe_behaviour true (fun a => some [a, a]) 3 224
    [torchEmpty 3 224, torchEmpty 3 224] rfl

/-- C3 counterexample: for a module in training mode (flag true) whose
forward pass raises during probing, `_get_shapes` (fpn.py lines
136-142) leaves the training flag false: `m.train(state)` is only
reached on the normal path, there is no try/finally, so the prior mode
is not restored on the exceptional exit path. -/
theorem probe_mode_not_restored_on_failure :
    (get_shapes true (fun _ => none) 3 224).final_training ≠ true := by
  decide

/-- C3 as amended: `_get_shapes` restores the backbone's prior
training/inference mode flag on the normal exit path, but when the
probing forward pass raises, the flag is left in inference mode
(training = false) rather than restored. -/
theorem get_shapes_mode_restoration (training0 : Bool)
    (f : TArr → Option (List TArr)) (ch sz : Nat) :
    ((f (torchEmpty ch sz)).isSome →
      (get_shapes training0 f ch sz).final_training = training0)
    ∧ (f (torchEmpty ch sz) = none →
      (get_shapes training0 f ch sz).final_training = false) := by
  constructor
  · intro hsome
    cases hok : f (torchEmpty ch sz) with
    | none => rw [hok] at hsome; simp at hsome
    | some feats => simp only [get_shapes, hok]
  · intro hnone
    simp only [get_shapes, hnone]

/-- Witness for C3's amended theorem: a succeeding probe restores the
flag; the hypotheses are discharged at concrete modules. -/
theorem get_shapes_mode_restoration_witness :
    (get_shapes true (fun a => some [a]) 3 224).final_training = true
    ∧ (get_shapes true (fun _ => none) 3 224).final_training = false :=
  ⟨(get_shapes_mode_restoration true (fun a => some [a]) 3 224).1 (by decide),
   (get_shapes_mode_restoration true (fun _ => none) 3 224).2 rfl⟩

theorem factory_model_form_effnet (backbone : Shape → Option (List Shape))
    (fpn_type : String) (out_size : Nat × Nat)
    (fpn_channels num_classes in_channels : Nat) (model : Layer)
    (hm : make_segm_fpn_efficientnet backbone fpn_type out_size fpn_channels
        num_classes in_channels = .ok model) :
    ∃ x y, model = .seq [x, y, .interpolateTo out_size.1 out_size.2] := by
  unfold make_segm_fpn_efficientnet at hm
  cases hb : backbone ⟨1, in_channels, out_size.1, out_size.1⟩ with
  | none => simp [hb] at hm
  | some feats =>
      simp only [hb] at hm
      split_ifs at hm <;> cases hm <;> exact ⟨_, _, rfl⟩

theorem factory_model_form_resnet (backbone : Shape → Option (List Shape))
    (fpn_type : String) (out_size : Nat × Nat)
    (fpn_channels num_classes in_channels : Nat) (model : Layer)
    (hm : make_segm_fpn_resnet backbone fpn_type out_size fpn_channels
        num_classes in_channels = .ok model) :
    ∃ x y, model = .seq [x, y, .interpolateTo out_size.1 out_size.2] := by
  unfold make_segm_fpn_resnet at hm
  cases hb : backbone ⟨1, in_channels, out_size.1, out_size.1⟩ with
  | none => simp [hb] at hm
  | some feats =>
      simp only [hb] at hm
      split_ifs at hm <;> cases hm <;> exact ⟨_, _, rfl⟩

theorem seq3_interp_shape (l1 l2 : Layer) (hh ww : Nat) (v v2 : Val)
    (hev : evalL (.seq [l1, l2, .interpolateTo hh ww]) v = some v2) :
    ∃ b : Shape, v2 = .arr b ∧ b.h = hh ∧ b.w = ww := by
  have h1 : evalSeq [l1, l2, .interpolateTo hh ww] v = some v2 := hev
  rw [evalSeq_cons] at h1
  cases e1 : evalL l1 v with
  | none => rw [e1] at h1; simp at h1
  | some u1 =>
      rw [e1] at h1
      simp only [Option.some_bind] at h1
      rw [evalSeq_cons] at h1
      cases e2 : evalL l2 u1 with
      | none => rw [e2] at h1; simp at h1
      | some u2 =>
          rw [e2] at h1
          simp only [Option.some_bind] at h1
          rw [evalSeq_singleton] at h1
          cases u2 with
          | stream xs => simp [evalL] at h1
          | arr s =>
              simp only [evalL, Option.some.injEq] at h1
              exact ⟨⟨s.n, s.c, hh, ww⟩, h1.symm, rfl, rfl⟩

/-- C6: a model assembled by either segmentation factory is called on a
single input Array and, whenever the call succeeds, returns a single
Array whose spatial size equals the configured out_size, because the
last pipeline stage is an Interpolate to that size (fpn.py lines
252-255 and 357-362). -/
theorem segm_model_output_size (backbone : Shape → Option (List Shape))
    (fpn_type : String) (out_size : Nat × Nat)
    (fpn_channels num_classes in_channels : Nat) (model : Layer)
    (hm : make_segm_fpn_efficientnet backbone fpn_type out_size fpn_channels
        num_classes in_channels = .ok model
      ∨ make_segm_fpn_resnet backbone fpn_type out_size fpn_channels
        num_classes in_channels = .ok model)
    (a : Shape) (v2 : Val) (hv : evalL model (.arr a) = some v2) :
    ∃ b : Shape, v2 = .arr b ∧ b.h = out_size.1 ∧ b.w = out_size.2 := by
  have hform : ∃ x y, model = .seq [x, y, .interpolateTo out_size.1 out_size.2] := by
    cases hm with
    | inl hfac =>
        exact factory_model_form_effnet backbone fpn_type out_size fpn_channels
          num_classes in_channels model hfac
    | inr hfac =>
        exact factory_model_form_resnet backbone fpn_type out_size fpn_channels
          num_classes in_channels model hfac
  obtain ⟨x, y, rfl⟩ := hform
  exact seq3_interp_shape x y out_size.1 out_size.2 (.arr a) v2 hv

/-- Witness for C6: running the concretely assembled model on a
(1, 3, 8, 8) input yields a single Array resampled to 8 x 8. -/
theorem segm_model_output_size_witness :
    ∃ b : Shape, Val.arr ⟨1, 5, 8, 8⟩ = Val.arr b ∧ b.h = 8 ∧ b.w = 8 :=
  segm_model_output_size bbWitness "fpn" (8, 8) 16 5 3 modelWitness
    (Or.inl rfl) ⟨1, 3, 8, 8⟩ (Val.arr ⟨1, 5, 8, 8⟩) (by decide)

theorem evalPar_cons (b : Layer) (bs : List Layer) (x : Shape) (xs : List Shape)
    (y : Shape) (hy : evalL b (.arr x) = some (.arr y)) :
    evalPar (b :: bs) (x :: xs) = (evalPar bs xs).map (fun ys => y :: ys) := by
  simp only [evalPar, hy]
  cases evalPar bs xs <;> rfl

theorem upsample_once_noscale (c g n h w : Nat) (hh : 1 ≤ h) (hw : 1 ≤ w) :
    evalL (upsample_once c (some (c / 2)) 1 none g) (.arr ⟨n, c, h, w⟩)
      = some (.arr ⟨n, c / 2, h, w⟩) := by
  have hform : upsample_once c (some (c / 2)) 1 none g
      = .seq [.conv2d c (c / 2) 3 1, .groupNorm g (c / 2), .relu] := by
    simp [upsample_once]
  rw [hform]
  show evalSeq [.conv2d c (c / 2) 3 1, .groupNorm g (c / 2), .relu]
      (.arr ⟨n, c, h, w⟩) = _
  exact cgr_eval c (c / 2) g n h w hh hw

theorem upsample_once_scale2 (c g n h w : Nat) (hh : 1 ≤ h) (hw : 1 ≤ w) :
    evalL (upsample_once c none 2 none g) (.arr ⟨n, c, h, w⟩)
      = some (.arr ⟨n, c, 2 * h, 2 * w⟩) := by
  have hform : upsample_once c none 2 none g
      = .seq [.conv2d c c 3 1, .groupNorm g c, .relu, .interpolateScale 2] := by
    simp [upsample_once]
  rw [hform]
  show evalSeq [.conv2d c c 3 1, .groupNorm g c, .relu, .interpolateScale 2]
      (.arr ⟨n, c, h, w⟩) = _
  rw [show [Layer.conv2d c c 3 1, .groupNorm g c, .relu, .interpolateScale 2]
      = [Layer.conv2d c c 3 1, .groupNorm g c, .relu]
          ++ [.interpolateScale 2] from rfl,
    evalSeq_append, cgr_eval c c g n h w hh hw]
  simp only [Option.some_bind]
  rw [evalSeq_singleton]
  simp [evalL]

theorem upsample_once_tosize (c g n h w sh sw : Nat) (hh : 1 ≤ h) (hw : 1 ≤ w) :
    evalL (upsample_once c (some (c / 2)) 2 (some (sh, sw)) g) (.arr ⟨n, c, h, w⟩)
      = some (.arr ⟨n, c / 2, sh, sw⟩) := by
  have hform : upsample_once c (some (c / 2)) 2 (some (sh, sw)) g
      = .seq [.conv2d c (c / 2) 3 1, .groupNorm g (c / 2), .relu,
              .interpolateTo sh sw] := by
    simp [upsample_once]
  rw [hform]
  show evalSeq [.conv2d c (c / 2) 3 1, .groupNorm g (c / 2), .relu,
      .interpolateTo sh sw] (.arr ⟨n, c, h, w⟩) = _
  rw [show [Layer.conv2d c (c / 2) 3 1, .groupNorm g (c / 2), .relu,
        .interpolateTo sh sw]
      = [Layer.conv2d c (c / 2) 3 1, .groupNorm g (c / 2), .relu]
          ++ [.interpolateTo sh sw] from rfl,
    evalSeq_append, cgr_eval c (c / 2) g n h w hh hw]
  simp only [Option.some_bind]
  rw [evalSeq_singleton]
  simp [evalL]

theorem scale2_chain_eval (u c g n h w : Nat) (hh : 1 ≤ h) (hw : 1 ≤ w) :
    ∃ h2 w2, evalSeq ((List.range u).map (fun _ => upsample_once c none 2 none g))
        (.arr ⟨n, c, h, w⟩) = some (.arr ⟨n, c, h2, w2⟩) ∧ 1 ≤ h2 ∧ 1 ≤ w2 := by
  induction u with
  | zero => exact ⟨h, w, rfl, hh, hw⟩
  | succ u ih =>
      obtain ⟨h2, w2, heval, hh2, hw2⟩ := ih
      refine ⟨2 * h2, 2 * w2, ?_, by omega, by omega⟩
      rw [List.range_succ, List.map_append, evalSeq_append, heval]
      simp only [List.map_cons, List.map_nil, Option.some_bind]
      rw [evalSeq_singleton, upsample_once_scale2 c g n h2 w2 hh2 hw2]

theorem upsample_feat_eval (c num_up g n h w sh sw : Nat)
    (hh : 1 ≤ h) (hw : 1 ≤ w) :
    ∃ h2 w2, evalL (upsample_feat c num_up (sh, sw) g) (.arr ⟨n, c, h, w⟩)
        = some (.arr ⟨n, c / 2, h2, w2⟩)
      ∧ (num_up = 0 → h2 = h ∧ w2 = w)
      ∧ (num_up ≠ 0 → h2 = sh ∧ w2 = sw) := by
  cases num_up with
  | zero =>
      refine ⟨h, w, ?_, fun _ => ⟨rfl, rfl⟩, fun hne => absurd rfl hne⟩
      have hform : upsample_feat c 0 (sh, sw) g
          = upsample_once c (some (c / 2)) 1 none g := by
        simp [upsample_feat]
      rw [hform]
      exact upsample_once_noscale c g n h w hh hw
  | succ u =>
      refine ⟨sh, sw, ?_, by simp, fun _ => ⟨rfl, rfl⟩⟩
      have hform : upsample_feat c (u + 1) (sh, sw) g
          = .seq ((List.range u).map (fun _ => upsample_once c none 2 none g)
              ++ [upsample_once c (some (c / 2)) 2 (some (sh, sw)) g]) := by
        simp [upsample_feat]
      rw [hform]
      show evalSeq ((List.range u).map (fun _ => upsample_once c none 2 none g)
          ++ [upsample_once c (some (c / 2)) 2 (some (sh, sw)) g])
          (.arr ⟨n, c, h, w⟩) = _
      obtain ⟨h2, w2, heval, hh2, hw2⟩ := scale2_chain_eval u c g n h w hh hw
      rw [evalSeq_append, heval]
      simp only [Option.some_bind]
      rw [evalSeq_singleton, upsample_once_tosize c g n h2 w2 sh sw hh2 hw2]

/-- C7: in PanopticFPN with num_ups = [0, 1, 2] over three feature
levels carrying a common batch size and (post-projection) channel
count, the three per-level upsampling ladders all produce arrays whose
spatial size is the finest (first) level's (fpn.py lines 56-66 and
77-107): the ladder with num_up = 0 keeps its input's spatial size,
which is the finest level's, and the others end with an Interpolate to
that size, so all three streams share identical height and width at the
point where AddTensors sums them. -/
theorem panoptic_ladders_align_to_finest (t0 u0 t1 u1 t2 u2 n c g : Nat)
    (ht0 : 1 ≤ t0) (hu0 : 1 ≤ u0) (ht1 : 1 ≤ t1) (hu1 : 1 ≤ u1)
    (ht2 : 1 ≤ t2) (hu2 : 1 ≤ u2) :
    evalL (make_upsamplers c (t0, u0) [0, 1, 2] g)
        (.stream [⟨n, c, t0, u0⟩, ⟨n, c, t1, u1⟩, ⟨n, c, t2, u2⟩])
      = some (.stream [⟨n, c / 2, t0, u0⟩, ⟨n, c / 2, t0, u0⟩,
                       ⟨n, c / 2, t0, u0⟩]) := by
  obtain ⟨a0, b0, he0, hz0, _⟩ := upsample_feat_eval c 0 g n t0 u0 t0 u0 ht0 hu0
  obtain ⟨ha0, hb0⟩ := hz0 rfl
  rw [ha0, hb0] at he0
  obtain ⟨a1, b1, he1, _, hs1⟩ := upsample_feat_eval c 1 g n t1 u1 t0 u0 ht1 hu1
  obtain ⟨ha1, hb1⟩ := hs1 (by decide)
  rw [ha1, hb1] at he1
  obtain ⟨a2, b2, he2, _, hs2⟩ := upsample_feat_eval c 2 g n t2 u2 t0 u0 ht2 hu2
  obtain ⟨ha2, hb2⟩ := hs2 (by decide)
  rw [ha2, hb2] at he2
  show (evalPar [upsample_feat c 0 (t0, u0) g, upsample_feat c 1 (t0, u0) g,
      upsample_feat c 2 (t0, u0) g]
      [⟨n, c, t0, u0⟩, ⟨n, c, t1, u1⟩, ⟨n, c, t2, u2⟩]).map Val.stream = _
  rw [evalPar_cons _ _ _ _ _ he0, evalPar_cons _ _ _ _ _ he1,
      evalPar_cons _ _ _ _ _ he2]
  rfl

/-- Witness for C7 on the spec's scenario-2 shapes (56,56), (28,28),
(14,14) with 32 post-projection channels. -/
theorem panoptic_ladders_align_to_finest_witness :
    evalL (make_upsamplers 32 (56, 56) [0, 1, 2] 16)
        (.stream [⟨1, 32, 56, 56⟩, ⟨1, 32, 28, 28⟩, ⟨1, 32, 14, 14⟩])
      = some (.stream [⟨1, 16, 56, 56⟩, ⟨1, 16, 56, 56⟩, ⟨1, 16, 56, 56⟩]) :=
  panoptic_ladders_align_to_finest 56 56 28 28 14 14 1 32 16
    (by decide) (by decide) (by decide) (by decide) (by decide) (by decide)

/-- C10: every per-level upsampling ladder of PanopticFPN, for every
num_up value including 0, outputs hidden_channels / 2 channels (fpn.py
lines 77-85: the last block of each ladder is built with
out_c = c // 2), so every element of the Stream reaching AddTensors has
hidden_channels / 2 channels, matching the input channel count of the
final 1x1 convolution Conv2d(hidden_channels // 2, out_channels)
(fpn.py line 66). -/
theorem panoptic_ladder_halves_channels :
    (∀ (c num_up g n h w sh sw : Nat), 1 ≤ h → 1 ≤ w →
      ∃ h2 w2, evalL (upsample_feat c num_up (sh, sw) g) (.arr ⟨n, c, h, w⟩)
        = some (.arr ⟨n, c / 2, h2, w2⟩))
    ∧ ∀ (in_feats_shapes : List Shape) (hidden_channels out_channels : Nat)
        (num_ups : List Nat) (g : Nat),
        ∃ p1 p2, PanopticFPN in_feats_shapes hidden_channels out_channels num_ups g
          = .seq [p1, p2, .addTensors,
                  .conv2d (hidden_channels / 2) out_channels 1 0] := by
  constructor
  · intro c num_up g n h w sh sw hh hw
    obtain ⟨h2, w2, he, _, _⟩ := upsample_feat_eval c num_up g n h w sh sw hh hw
    exact ⟨h2, w2, he⟩
  · intro shapes hid out nu g
    exact ⟨_, _, rfl⟩

/-- Witness for C10 with a two-step ladder and a one-level PanopticFPN. -/
theorem panoptic_ladder_halves_channels_witness :
    (∃ h2 w2, evalL (upsample_feat 8 2 (4, 4) 4) (.arr ⟨1, 8, 2, 2⟩)
        = some (.arr ⟨1, 4, h2, w2⟩))
    ∧ ∃ p1 p2, PanopticFPN [⟨1, 3, 4, 4⟩] 8 5 [0] 4
        = .seq [p1, p2, .addTensors, .conv2d 4 5 1 0] :=
  ⟨panoptic_ladder_halves_channels.1 8 2 4 1 2 2 4 4 (by decide) (by decide),
   panoptic_ladder_halves_channels.2 [⟨1, 3, 4, 4⟩] 8 5 [0] 4⟩

theorem splitTensor_join {α : Type} (ss : List Nat) (l : List α) (r : List (List α))
    (h : splitTensor ss l = some r) : r.flatten = l := by
  induction ss generalizing l r with
  | nil =>
      cases l with
      | nil =>
          simp only [splitTensor, Option.some.injEq] at h
          simp [← h]
      | cons a l => simp [splitTensor] at h
  | cons s ss ih =>
      simp only [splitTensor] at h
      split_ifs at h with hle
      · cases hrec : splitTensor ss (l.drop s) with
        | none => simp [hrec] at h
        | some r2 =>
            simp only [hrec, Option.some.injEq] at h
            subst h
            simp only [List.flatten_cons]
            rw [ih (l.drop s) r2 hrec, List.take_append_drop]

theorem splitTensor_total {α : Type} (ss : List Nat) (l : List α)
    (hsum : ss.sum = l.length) : (splitTensor ss l).isSome := by
  induction ss generalizing l with
  | nil =>
      cases l with
      | nil => simp [splitTensor]
      | cons a l =>
          simp only [List.sum_nil, List.length_cons] at hsum
          omega
  | cons s ss ih =>
      have hle : s ≤ l.length := by
        simp only [List.sum_cons] at hsum
        omega
      have hrest : ss.sum = (l.drop s).length := by
        simp only [List.length_drop]
        simp only [List.sum_cons] at hsum
        omega
      have hrec := ih (l.drop s) hrest
      simp only [splitTensor, if_pos hle]
      cases hsplit : splitTensor ss (l.drop s) with
      | none => rw [hsplit] at hrec; simp at hrec
      | some r => simp [hsplit]

theorem splitTensor_none {α : Type} (ss : List Nat) (l : List α)
    (hsum : ss.sum ≠ l.length) : splitTensor ss l = none := by
  induction ss generalizing l with
  | nil =>
      cases l with
      | nil => simp at hsum
      | cons a l => simp [splitTensor]
  | cons s ss ih =>
      by_cases hle : s ≤ l.length
      · have hrest : ss.sum ≠ (l.drop s).length := by
          simp only [List.length_drop]
          simp only [List.sum_cons] at hsum
          omega
        simp only [splitTensor, if_pos hle, ih (l.drop s) hrest]
      · simp only [splitTensor, if_neg hle]

/-- C9: SplitTensor (used with the partition (3, in_channels - 3) along
the channel axis at fpn.py lines 216-221) satisfies the round-trip law:
for every Array whose channel axis is the list `l` and every configured
partition of its channel count, splitting succeeds and concatenating
the chunks in the same order reconstructs the original channel list
exactly; when the configured chunk sizes do not sum to the channel
count, SplitTensor errors. -/
theorem split_tensor_roundtrip :
    (∀ (ss : List Nat) (l : List Int) (r : List (List Int)),
      splitTensor ss l = some r → r.flatten = l)
    ∧ (∀ (ss : List Nat) (l : List Int), ss.sum = l.length →
        (splitTensor ss l).isSome)
    ∧ ∀ (ss : List Nat) (l : List Int), ss.sum ≠ l.length →
        splitTensor ss l = none :=
  ⟨fun ss l r => splitTensor_join ss l r,
   fun ss l => splitTensor_total ss l,
   fun ss l => splitTensor_none ss l⟩

/-- Witness for C9 on a concrete 3-channel array split as (2, 1), and a
mis-sized partition (2) that errors. -/
theorem split_tensor_roundtrip_witness :
    ([[5, 6], [7]] : List (List Int)).flatten = [5, 6, 7]
    ∧ (splitTensor [2, 1] ([5, 6, 7] : List Int)).isSome
    ∧ splitTensor [2] ([5, 6, 7] : List Int) = none :=
  ⟨split_tensor_roundtrip.1 [2, 1] [5, 6, 7] [[5, 6], [7]] (by decide),
   split_tensor_roundtrip.2.1 [2, 1] [5, 6, 7] (by decide),
   split_tensor_roundtrip.2.2 [2] [5, 6, 7] (by decide)⟩
